import Mathlib

/-!
Verification of the scan-diff-announce core of the Doorbell_Project repository.

The repository contains two scripts:
* `phone-detector.py` — class `WifiPhoneDetector`, whose `get_networks`
  parses `netsh` output into a dict keyed by SSID, and whose
  `analyze_network_changes` diffs that dict against the in-memory
  `known_networks` state, announcing new / strengthened / disappeared
  networks.
* `wifi-monitor(1).py` — class `WifiMonitor`, whose `monitor` loop
  compares `scan_results` (keyed by BSSID) against a database-backed
  `known_networks` cache, prompting for and persisting user labels.

Python dicts are embedded as association lists `List (String × α)` with
first-occurrence lookup; all dict keys in the real program are unique, so
theorems take `Nodup`-keys hypotheses where they matter.
-/

set_option maxHeartbeats 1000000

namespace Doorbell

/-- First-occurrence lookup in an association list: `d[k]` / `k in d`. -/
def dlookup {α : Type} (k : String) : List (String × α) → Option α
  | [] => none
  | (k', v) :: rest => if k' = k then some v else dlookup k rest

/-- Python dict assignment `d[k] = v`: replace the value in place if `k`
is present, otherwise append the pair at the end (dicts preserve
insertion order). -/
def dset {α : Type} (k : String) (v : α) : List (String × α) → List (String × α)
  | [] => [(k, v)]
  | (k', v') :: rest => if k' = k then (k, v) :: rest else (k', v') :: dset k v rest

/-- Python `del d[k]`: remove the entry with key `k`. -/
def derase {α : Type} (k : String) : List (String × α) → List (String × α)
  | [] => []
  | (k', v) :: rest => if k' = k then rest else (k', v) :: derase k rest

/-- Keys of an association list, in order. -/
def dkeys {α : Type} (d : List (String × α)) : List String := d.map Prod.fst

/-- The keys are pairwise distinct — true of every Python dict. -/
def nodupKeys {α : Type} (d : List (String × α)) : Prop := (dkeys d).Nodup

instance decNodupKeys {α : Type} (d : List (String × α)) : Decidable (nodupKeys d) :=
  inferInstanceAs (Decidable ((dkeys d).Nodup))

/-- The per-network record built by `get_networks`:
`{'signal': ..., 'first_seen': datetime.now()}` (timestamps are abstract
`Nat`s; signals are unbounded `Int`s exactly like Python ints). -/
structure NetData where
  signal : Int
  first_seen : Nat
deriving DecidableEq, Repr

/-- One announcement-worthy change, one constructor per `announce` call
site of `analyze_network_changes` (the two "new device" strings are both
`appeared`; the wording split on `signal > 60` lives in `renderEvent`). -/
inductive ChangeEvent where
  | appeared (ssid : String) (signal : Int)
  | strengthened (ssid : String) (old_signal new_signal : Int)
  | disappeared (ssid : String)
deriving DecidableEq, Repr

/-- The exact message `analyze_network_changes` passes to `announce`
for each change. -/
def renderEvent : ChangeEvent → String
  | .appeared _ sig =>
      if sig > 60 then
        s!"New device detected very close by with signal strength {sig}%"
      else
        s!"New device detected with signal strength {sig}%"
  | .strengthened ssid old_signal new_signal =>
      s!"Device {ssid} moving closer. Signal increased from {old_signal}% to {new_signal}%"
  | .disappeared ssid => s!"Device {ssid} moved out of range"

/-- First loop of `analyze_network_changes` (lines 65–80): walk the
current scan in order; an unknown SSID is announced as appeared and
stored (`self.known_networks[ssid] = data`); a known SSID is announced
as strengthened when `new_signal > old_signal + 20`, and its stored
signal is updated unconditionally (`self.known_networks[ssid]['signal']
= new_signal`, keeping the stored `first_seen`). -/
def processCurrent (known : List (String × NetData)) :
    List (String × NetData) → List ChangeEvent × List (String × NetData)
  | [] => ([], known)
  | (ssid, data) :: rest =>
    match dlookup ssid known with
    | none =>
        let res := processCurrent (dset ssid data known) rest
        (ChangeEvent.appeared ssid data.signal :: res.1, res.2)
    | some old =>
        let res := processCurrent (dset ssid { old with signal := data.signal } known) rest
        (if data.signal > old.signal + 20 then
          ChangeEvent.strengthened ssid old.signal data.signal :: res.1
         else res.1, res.2)

/-- Second loop of `analyze_network_changes` (lines 83–86): iterate over
a snapshot `list(self.known_networks.keys())`; every key absent from the
current scan is announced as disappeared and deleted. -/
def sweepDisappeared (current : List (String × NetData)) :
    List String → List (String × NetData) → List ChangeEvent × List (String × NetData)
  | [], known => ([], known)
  | ssid :: rest, known =>
    match dlookup ssid current with
    | none =>
        let res := sweepDisappeared current rest (derase ssid known)
        (ChangeEvent.disappeared ssid :: res.1, res.2)
    | some _ => sweepDisappeared current rest known

/-- `WifiPhoneDetector.analyze_network_changes`: the full diff-and-update
step, returning the announced events in emission order together with the
updated `known_networks` state. -/
def analyze_network_changes (known current : List (String × NetData)) :
    List ChangeEvent × List (String × NetData) :=
  let p := processCurrent known current
  let s := sweepDisappeared current (dkeys p.2) p.2
  (p.1 ++ s.1, s.2)

/-! ### `WifiPhoneDetector.get_networks` — parsing the `netsh` output -/

/-- Python `str.split(sep)` for a one-character separator, on character
lists (Lean's own string functions are opaque to the kernel, so the
Python string operations are modelled on `List Char`). -/
def splitOnChar (sep : Char) : List Char → List (List Char)
  | [] => [[]]
  | c :: rest =>
    if c = sep then [] :: splitOnChar sep rest
    else match splitOnChar sep rest with
      | [] => [[c]]
      | seg :: segs => (c :: seg) :: segs

/-- The whitespace characters `str.strip()` removes (the ones that occur
in `netsh` output). -/
def isSpc (c : Char) : Bool := c = ' ' || c = '\t' || c = '\n' || c = '\r'

/-- Python `str.strip()`. -/
def trimChars (l : List Char) : List Char :=
  ((l.dropWhile isSpc).reverse.dropWhile isSpc).reverse

/-- Value of a decimal digit string. -/
def digitsVal (l : List Char) : Nat := l.foldl (fun a c => a * 10 + (c.toNat - 48)) 0

/-- Python `int(...)` on the strings that occur: optional sign and
decimal digits (`int()` raises on anything else; `netsh` always supplies
digits, so the model totalises the garbage case as a digit fold). -/
def parseIntChars : List Char → Int
  | '-' :: rest => - (digitsVal rest : Int)
  | l => (digitsVal l : Int)

/-- Does `p` occur as a contiguous block of `l`? -/
def hasBlock (p : List Char) : List Char → Bool
  | [] => p.isPrefixOf []
  | c :: rest => p.isPrefixOf (c :: rest) || hasBlock p rest

/-- Python's substring test `pat in line`. -/
def containsSub (line : List Char) (pat : String) : Bool := hasBlock pat.data line

/-- Python `line.split(':')[-1].strip()`. -/
def lastSegment (line : List Char) : List Char :=
  trimChars ((splitOnChar ':' line).getLastD [])

/-- Python `int(line.split(':')[-1].strip().replace('%', ''))`. -/
def parseSignal (line : List Char) : Int :=
  parseIntChars ((lastSegment line).filter (fun c => c ≠ '%'))

/-- The parsing loop of `get_networks` (lines 44–52): a line containing
`SSID` but not `BSSID` starts a new entry keyed by the (nonempty) SSID
with signal 0; a line containing `Signal` stores the parsed signal into
the entry of the most recent SSID.  Empty SSIDs are skipped
(`if ssid and ssid != ''`) and leave `current_ssid` untouched. -/
def parseLines (now : Nat) :
    List (List Char) → List (String × NetData) → Option String → List (String × NetData)
  | [], networks, _ => networks
  | line :: rest, networks, current_ssid =>
    if containsSub line "SSID" && !containsSub line "BSSID" then
      let ssid : String := ⟨lastSegment line⟩
      if ssid ≠ "" then
        parseLines now rest (dset ssid ⟨0, now⟩ networks) (some ssid)
      else
        parseLines now rest networks current_ssid
    else if containsSub line "Signal" then
      match current_ssid with
      | some cs =>
          -- `networks[current_ssid]['signal'] = signal`; the key is always
          -- present here in the source, so the `none` arm is unreachable.
          match dlookup cs networks with
          | some e => parseLines now rest (dset cs { e with signal := parseSignal line } networks) current_ssid
          | none => parseLines now rest networks current_ssid
      | none => parseLines now rest networks current_ssid
    else parseLines now rest networks current_ssid

/-- `WifiPhoneDetector.get_networks`: run `netsh` (its outcome is the
`Except` argument: raw stdout, or a `CalledProcessError` message), split
the output on newlines and parse the lines; on failure print the error
and return `{}`. -/
def get_networks (scan : Except String String) (now : Nat) : List (String × NetData) :=
  match scan with
  | .error _ => []
  | .ok output => parseLines now (splitOnChar '\n' output.data) [] none

/-- One iteration of `WifiPhoneDetector.start_monitoring` (lines 96–97):
`current_networks = self.get_networks()` followed by
`self.analyze_network_changes(current_networks)`. -/
def monitoring_cycle (known : List (String × NetData)) (scan : Except String String)
    (now : Nat) : List ChangeEvent × List (String × NetData) :=
  analyze_network_changes known (get_networks scan now)

/-! ### `WifiMonitor` — the database-backed monitor of `wifi-monitor(1).py` -/

/-- A value of the in-memory cache `self.known_networks`:
`{'ssid': ..., 'custom_name': ...}` (`custom_name` is `None`-able: it is
loaded from a nullable column). -/
structure KnownRec where
  ssid : String
  custom_name : Option String
deriving DecidableEq, Repr

/-- A row of the `networks` table (`bssid` is the primary key). -/
structure DbRow where
  bssid : String
  ssid : String
  custom_name : String
  first_seen : Nat
  last_seen : Nat
deriving DecidableEq, Repr

/-- Python truthiness of the `custom_name` values that occur: `None` and
`''` are falsy. -/
def truthy : Option String → Bool
  | none => false
  | some s => s ≠ ""

/-- One `scan_results` entry, projected to the fields `monitor` reads. -/
structure ScanEntry where
  bssid : String
  ssid : String
deriving DecidableEq, Repr

/-- The announcements `monitor` can make, one constructor per
`announce_network` call site. -/
inductive WAnnouncement where
  | newSignal
  | networkNamed (name : String)
  | detected (name : String)
deriving DecidableEq, Repr

/-- The mutable state `monitor` touches: the in-memory cache and the
SQLite table. -/
structure WifiState where
  known : List (String × KnownRec)
  db : List DbRow
deriving DecidableEq, Repr

/-- `WifiMonitor.prompt_for_name`: ask the user (the `oracle` argument
models `simpledialog.askstring`, `none` = cancelled/failed); a truthy
answer is INSERTed into the table and copied into the cache.  An INSERT
whose `bssid` already exists violates the primary key and raises, which
the handler turns into `None` with no cache update. -/
def prompt_for_name (oracle : String → Option String) (now : Nat) (ssid bssid : String)
    (st : WifiState) : Option String × WifiState :=
  let custom_name := oracle bssid
  if truthy custom_name then
    if st.db.any (fun r => r.bssid = bssid) then
      (none, st)
    else
      (custom_name,
       ⟨dset bssid ⟨ssid, custom_name⟩ st.known,
        st.db ++ [⟨bssid, ssid, custom_name.getD "", now, now⟩]⟩)
  else (custom_name, st)

/-- The body of `monitor`'s `for network in networks` loop (lines
186–206) for one scan entry: skip empty SSIDs; an unknown BSSID is
announced as a new signal and prompted for a name (the prompted BSSID is
recorded in the second component); a known BSSID with a truthy
`custom_name` is announced as detected. -/
def processNetwork (oracle : String → Option String) (now : Nat) (st : WifiState)
    (net : ScanEntry) : List WAnnouncement × List String × WifiState :=
  if net.ssid = "" then ([], [], st)
  else
    match dlookup net.bssid st.known with
    | none =>
        let r := prompt_for_name oracle now net.ssid net.bssid st
        (WAnnouncement.newSignal ::
           (if truthy r.1 then [WAnnouncement.networkNamed (r.1.getD "")] else []),
         [net.bssid], r.2)
    | some r0 =>
        (if truthy r0.custom_name then [WAnnouncement.detected (r0.custom_name.getD "")]
         else [], [], st)

/-- One pass of `WifiMonitor.monitor` over a scan result list: the
announcements in order, the BSSIDs that were prompted for a name, and
the final state. -/
def monitorCycle (oracle : String → Option String) (now : Nat) (st : WifiState) :
    List ScanEntry → List WAnnouncement × List String × WifiState
  | [] => ([], [], st)
  | net :: rest =>
    let r := processNetwork oracle now st net
    let r2 := monitorCycle oracle now r.2.2 rest
    (r.1 ++ r2.1, r.2.1 ++ r2.2.1, r2.2.2)

/-! ### Association-list lemmas -/

theorem dkeys_nil {α : Type} : dkeys ([] : List (String × α)) = [] := rfl

theorem dkeys_cons {α : Type} (p : String × α) (d : List (String × α)) :
    dkeys (p :: d) = p.1 :: dkeys d := rfl

theorem nodupKeys_cons {α : Type} {p : String × α} {d : List (String × α)} :
    nodupKeys (p :: d) ↔ p.1 ∉ dkeys d ∧ nodupKeys d := by
  rw [nodupKeys, dkeys_cons, List.nodup_cons, nodupKeys]

theorem dlookup_dset_self {α : Type} (k : String) (v : α) (d : List (String × α)) :
    dlookup k (dset k v d) = some v := by
  induction d with
  | nil => simp [dset, dlookup]
  | cons p rest ih =>
    by_cases h : p.1 = k
    · simp [dset, h, dlookup]
    · simp [dset, h, dlookup, ih]

theorem dlookup_dset_ne {α : Type} {k s : String} (v : α) (d : List (String × α))
    (h : k ≠ s) : dlookup s (dset k v d) = dlookup s d := by
  have hks : ¬ (k = s) := h
  induction d with
  | nil => simp [dset, dlookup, hks]
  | cons p rest ih =>
    by_cases hp : p.1 = k
    · rw [show dset k v (p :: rest) = (k, v) :: rest by simp [dset, hp]]
      rw [show dlookup s ((k, v) :: rest) = dlookup s rest by simp [dlookup, hks]]
      rw [show dlookup s (p :: rest) = dlookup s rest by simp [dlookup, hp, hks]]
    · rw [show dset k v (p :: rest) = p :: dset k v rest by simp [dset, hp]]
      by_cases hs : p.1 = s
      · simp [dlookup, hs]
      · simp [dlookup, hs, ih]

theorem dkeys_dset_absent {α : Type} {k : String} (v : α) {d : List (String × α)}
    (h : dlookup k d = none) : dkeys (dset k v d) = dkeys d ++ [k] := by
  induction d with
  | nil => simp [dset, dkeys]
  | cons p rest ih =>
    by_cases hp : p.1 = k
    · simp [dlookup, hp] at h
    · rw [dlookup, if_neg hp] at h
      rw [show dset k v (p :: rest) = p :: dset k v rest by simp [dset, hp]]
      rw [dkeys_cons, dkeys_cons, ih h, List.cons_append]

theorem dkeys_dset_present {α : Type} {k : String} (v : α) {d : List (String × α)}
    (h : (dlookup k d).isSome) : dkeys (dset k v d) = dkeys d := by
  induction d with
  | nil => simp [dlookup] at h
  | cons p rest ih =>
    by_cases hp : p.1 = k
    · rw [show dset k v (p :: rest) = (k, v) :: rest by simp [dset, hp]]
      rw [dkeys_cons, dkeys_cons, hp]
    · rw [dlookup, if_neg hp] at h
      rw [show dset k v (p :: rest) = p :: dset k v rest by simp [dset, hp]]
      rw [dkeys_cons, dkeys_cons, ih h]

theorem dlookup_none_iff {α : Type} {s : String} {d : List (String × α)} :
    dlookup s d = none ↔ s ∉ dkeys d := by
  induction d with
  | nil => simp [dlookup, dkeys]
  | cons p rest ih =>
    rw [dkeys_cons]
    by_cases hp : p.1 = s
    · simp [dlookup, hp]
    · rw [dlookup, if_neg hp, ih, List.mem_cons]
      constructor
      · intro hh h2
        rcases h2 with h2 | h2
        · exact hp h2.symm
        · exact hh h2
      · intro hh h2
        exact hh (Or.inr h2)

theorem dlookup_isSome_iff {α : Type} {s : String} {d : List (String × α)} :
    (dlookup s d).isSome ↔ s ∈ dkeys d := by
  have h := dlookup_none_iff (s := s) (d := d)
  cases hl : dlookup s d <;> simp [hl] at h ⊢
  · exact h
  · exact h

theorem dset_lookup_self {α : Type} {k : String} {v : α} {d : List (String × α)}
    (h : dlookup k d = some v) : dset k v d = d := by
  induction d with
  | nil => simp [dlookup] at h
  | cons p rest ih =>
    by_cases hp : p.1 = k
    · rw [dlookup, if_pos hp] at h
      rw [show dset k v (p :: rest) = (k, v) :: rest by simp [dset, hp]]
      rw [← hp, ← (Option.some_inj.mp h)]
    · rw [dlookup, if_neg hp] at h
      rw [show dset k v (p :: rest) = p :: dset k v rest by simp [dset, hp], ih h]

theorem nodupKeys_dset {α : Type} {k : String} (v : α) {d : List (String × α)}
    (h : nodupKeys d) : nodupKeys (dset k v d) := by
  rcases hl : dlookup k d with _ | w
  · rw [nodupKeys, dkeys_dset_absent v hl]
    rw [List.nodup_append]
    exact ⟨h, List.nodup_singleton k, by
      intro x hx hk
      rw [List.mem_singleton] at hk
      subst hk
      exact dlookup_none_iff.mp hl hx⟩
  · rw [nodupKeys, dkeys_dset_present v (by simp [hl])]
    exact h

theorem dlookup_derase {α : Type} {k s : String} {d : List (String × α)}
    (h : nodupKeys d) :
    dlookup s (derase k d) = if s = k then none else dlookup s d := by
  induction d with
  | nil => simp [derase, dlookup]
  | cons p rest ih =>
    rcases nodupKeys_cons.mp h with ⟨hnm, hrest⟩
    by_cases hp : p.1 = k
    · rw [show derase k (p :: rest) = rest by simp [derase, hp]]
      by_cases hs : s = k
      · subst hs
        rw [if_pos rfl, dlookup_none_iff]
        rw [hp] at hnm
        exact hnm
      · rw [if_neg hs, dlookup, if_neg (by rw [hp]; exact fun hh => hs hh.symm)]
    · rw [show derase k (p :: rest) = p :: derase k rest by simp [derase, hp]]
      by_cases hs : p.1 = s
      · have hsk : ¬ (s = k) := by rw [← hs]; exact fun hh => hp hh
        rw [dlookup, if_pos hs, if_neg hsk, dlookup, if_pos hs]
      · rw [dlookup, if_neg hs, ih hrest]
        by_cases hsk : s = k
        · rw [if_pos hsk, if_pos hsk]
        · rw [if_neg hsk, if_neg hsk, dlookup, if_neg hs]

theorem dkeys_derase_sub {α : Type} {k x : String} {d : List (String × α)}
    (h : x ∈ dkeys (derase k d)) : x ∈ dkeys d := by
  induction d with
  | nil => simpa [derase] using h
  | cons p rest ih =>
    by_cases hp : p.1 = k
    · rw [show derase k (p :: rest) = rest by simp [derase, hp]] at h
      rw [dkeys_cons]
      exact List.mem_cons_of_mem _ h
    · rw [show derase k (p :: rest) = p :: derase k rest by simp [derase, hp],
        dkeys_cons] at h
      rw [dkeys_cons]
      rcases List.mem_cons.mp h with h1 | h1
      · exact List.mem_cons.mpr (Or.inl h1)
      · exact List.mem_cons.mpr (Or.inr (ih h1))

theorem nodupKeys_derase {α : Type} {k : String} {d : List (String × α)}
    (h : nodupKeys d) : nodupKeys (derase k d) := by
  induction d with
  | nil => simpa [derase] using h
  | cons p rest ih =>
    rcases nodupKeys_cons.mp h with ⟨hnm, hrest⟩
    by_cases hp : p.1 = k
    · rw [show derase k (p :: rest) = rest by simp [derase, hp]]
      exact hrest
    · rw [show derase k (p :: rest) = p :: derase k rest by simp [derase, hp]]
      exact nodupKeys_cons.mpr ⟨fun hx => hnm (dkeys_derase_sub hx), ih hrest⟩

theorem dlookup_mem {α : Type} {s : String} {v : α} {d : List (String × α)}
    (h : dlookup s d = some v) : (s, v) ∈ d := by
  induction d with
  | nil => simp [dlookup] at h
  | cons p rest ih =>
    by_cases hp : p.1 = s
    · rw [dlookup, if_pos hp] at h
      have : p = (s, v) := by
        rcases p with ⟨a, b⟩
        simp at hp
        simp at h
        rw [hp, h]
      rw [this]
      exact List.mem_cons_self _ _
    · rw [dlookup, if_neg hp] at h
      exact List.mem_cons_of_mem _ (ih h)

theorem mem_dlookup {α : Type} {s : String} {v : α} {d : List (String × α)}
    (hd : nodupKeys d) (h : (s, v) ∈ d) : dlookup s d = some v := by
  induction d with
  | nil => simp at h
  | cons p rest ih =>
    rcases nodupKeys_cons.mp hd with ⟨hnm, hrest⟩
    rcases List.mem_cons.mp h with h1 | h1
    · rw [← h1, dlookup, if_pos rfl]
    · have hps : p.1 ≠ s := by
        intro hh
        apply hnm
        rw [hh]
        exact List.mem_map_of_mem Prod.fst h1
      rw [dlookup, if_neg hps]
      exact ih hrest h1

theorem mem_dkeys_mem {α : Type} {s : String} {d : List (String × α)}
    (h : s ∈ dkeys d) : ∃ v, (s, v) ∈ d := by
  rcases List.mem_map.mp h with ⟨p, hp, hps⟩
  exact ⟨p.2, by rw [← hps]; exact hp⟩

/-! ### Characterising `processCurrent` and `sweepDisappeared` -/

/-- The event the first loop emits for a single observation, relative to
the pre-cycle state. -/
def eventFor (known : List (String × NetData)) (p : String × NetData) : Option ChangeEvent :=
  match dlookup p.1 known with
  | none => some (ChangeEvent.appeared p.1 p.2.signal)
  | some old =>
      if p.2.signal > old.signal + 20 then
        some (ChangeEvent.strengthened p.1 old.signal p.2.signal)
      else none

/-- The identifier an event is about. -/
def evId : ChangeEvent → String
  | .appeared ssid _ => ssid
  | .strengthened ssid _ _ => ssid
  | .disappeared ssid => ssid

theorem eventFor_evId {known : List (String × NetData)} {p : String × NetData}
    {e : ChangeEvent} (h : eventFor known p = some e) : evId e = p.1 := by
  rcases hl : dlookup p.1 known with _ | old
  · simp [eventFor, hl] at h
    cases h
    rfl
  · by_cases hgt : p.2.signal > old.signal + 20
    · simp [eventFor, hl, hgt] at h
      cases h
      rfl
    · simp [eventFor, hl, hgt] at h

/-- With distinct scan keys the first loop emits, in scan order, exactly
the per-observation events computed against the pre-cycle state. -/
theorem processCurrent_events :
    ∀ (cur : List (String × NetData)) (known known0 : List (String × NetData)),
    (dkeys cur).Nodup →
    (∀ s, s ∈ dkeys cur → dlookup s known = dlookup s known0) →
    (processCurrent known cur).1 = cur.filterMap (eventFor known0)
  | [], known, known0, _, _ => rfl
  | (ssid, data) :: rest, known, known0, hnd, hagree => by
    have hssid : ssid ∈ dkeys ((ssid, data) :: rest) := by
      rw [dkeys_cons]; exact List.mem_cons_self _ _
    have hhead := hagree ssid hssid
    rw [dkeys_cons, List.nodup_cons] at hnd
    have hrest : ∀ s, s ∈ dkeys rest → s ≠ ssid := by
      intro s hs he
      exact hnd.1 (he ▸ hs)
    rcases hl : dlookup ssid known with _ | old
    · have hagree' : ∀ s, s ∈ dkeys rest → dlookup s (dset ssid data known) = dlookup s known0 := by
        intro s hs
        rw [dlookup_dset_ne _ _ (fun hh => hrest s hs hh.symm)]
        exact hagree s (by rw [dkeys_cons]; exact List.mem_cons_of_mem _ hs)
      have ih := processCurrent_events rest (dset ssid data known) known0 hnd.2 hagree'
      rw [show processCurrent known ((ssid, data) :: rest)
            = (ChangeEvent.appeared ssid data.signal ::
                (processCurrent (dset ssid data known) rest).1,
               (processCurrent (dset ssid data known) rest).2) by
        rw [processCurrent, hl]]
      rw [List.filterMap_cons]
      rw [show eventFor known0 (ssid, data) = some (ChangeEvent.appeared ssid data.signal) by
        rw [eventFor]
        rw [show dlookup (ssid, data).1 known0 = none by rw [← hhead, hl]]]
      rw [ih]
    · have hagree' : ∀ s, s ∈ dkeys rest →
          dlookup s (dset ssid { old with signal := data.signal } known) = dlookup s known0 := by
        intro s hs
        rw [dlookup_dset_ne _ _ (fun hh => hrest s hs hh.symm)]
        exact hagree s (by rw [dkeys_cons]; exact List.mem_cons_of_mem _ hs)
      have ih := processCurrent_events rest
        (dset ssid { old with signal := data.signal } known) known0 hnd.2 hagree'
      rw [show processCurrent known ((ssid, data) :: rest)
            = ((if data.signal > old.signal + 20 then
                  ChangeEvent.strengthened ssid old.signal data.signal ::
                    (processCurrent (dset ssid { old with signal := data.signal } known) rest).1
                else (processCurrent (dset ssid { old with signal := data.signal } known) rest).1),
               (processCurrent (dset ssid { old with signal := data.signal } known) rest).2) by
        rw [processCurrent, hl]]
      rw [List.filterMap_cons]
      rw [show eventFor known0 (ssid, data)
            = if data.signal > old.signal + 20 then
                some (ChangeEvent.strengthened ssid old.signal data.signal)
              else none by
        rw [eventFor]
        rw [show dlookup (ssid, data).1 known0 = some old by rw [← hhead, hl]]]
      by_cases hgt : data.signal > old.signal + 20
      · rw [if_pos hgt, if_pos hgt, ih]
      · rw [if_neg hgt, if_neg hgt, ih]

/-- Lookup in the state after the first loop: every scanned identifier
is stored with the scanned signal (a fresh record if it was unknown, the
old record with updated signal otherwise); all other identifiers keep
their old record. -/
theorem processCurrent_lookup :
    ∀ (cur : List (String × NetData)) (known : List (String × NetData)) (s : String),
    (dkeys cur).Nodup →
    dlookup s (processCurrent known cur).2 =
      match dlookup s cur with
      | some d =>
          match dlookup s known with
          | none => some d
          | some w => some { w with signal := d.signal }
      | none => dlookup s known
  | [], known, s, _ => by rw [processCurrent, dlookup]
  | (ssid, data) :: rest, known, s, hnd => by
    rw [dkeys_cons, List.nodup_cons] at hnd
    by_cases hs : ssid = s
    · subst hs
      have hsrest : dlookup ssid rest = none :=
        dlookup_none_iff.mpr hnd.1
      rcases hl : dlookup ssid known with _ | old
      · rw [show (processCurrent known ((ssid, data) :: rest)).2
              = (processCurrent (dset ssid data known) rest).2 by rw [processCurrent, hl]]
        rw [processCurrent_lookup rest _ ssid hnd.2]
        simp [hsrest, dlookup, hl, dlookup_dset_self]
      · rw [show (processCurrent known ((ssid, data) :: rest)).2
              = (processCurrent (dset ssid { old with signal := data.signal } known) rest).2 by
          rw [processCurrent, hl]]
        rw [processCurrent_lookup rest _ ssid hnd.2]
        simp [hsrest, dlookup, hl, dlookup_dset_self]
    · have hcur : dlookup s ((ssid, data) :: rest) = dlookup s rest := by
        rw [dlookup, if_neg hs]
      rcases hl : dlookup ssid known with _ | old
      · rw [show (processCurrent known ((ssid, data) :: rest)).2
              = (processCurrent (dset ssid data known) rest).2 by rw [processCurrent, hl]]
        rw [processCurrent_lookup rest _ s hnd.2, hcur,
          dlookup_dset_ne _ _ hs]
      · rw [show (processCurrent known ((ssid, data) :: rest)).2
              = (processCurrent (dset ssid { old with signal := data.signal } known) rest).2 by
          rw [processCurrent, hl]]
        rw [processCurrent_lookup rest _ s hnd.2, hcur,
          dlookup_dset_ne _ _ hs]

/-- Keys of the state after the first loop: the old keys in order,
followed by the genuinely new scan keys in scan order. -/
theorem processCurrent_keys :
    ∀ (cur : List (String × NetData)) (known known0 : List (String × NetData)),
    (dkeys cur).Nodup →
    (∀ s, s ∈ dkeys cur → dlookup s known = dlookup s known0) →
    dkeys (processCurrent known cur).2 =
      dkeys known ++ dkeys (cur.filter (fun p => (dlookup p.1 known0).isNone))
  | [], known, known0, _, _ => by
    rw [processCurrent, List.filter_nil, dkeys_nil, List.append_nil]
  | (ssid, data) :: rest, known, known0, hnd, hagree => by
    have hssid : ssid ∈ dkeys ((ssid, data) :: rest) := by
      rw [dkeys_cons]; exact List.mem_cons_self _ _
    have hhead := hagree ssid hssid
    rw [dkeys_cons, List.nodup_cons] at hnd
    have hrest : ∀ s, s ∈ dkeys rest → s ≠ ssid := by
      intro s hs he
      exact hnd.1 (he ▸ hs)
    rcases hl : dlookup ssid known with _ | old
    · have hagree' : ∀ s, s ∈ dkeys rest → dlookup s (dset ssid data known) = dlookup s known0 := by
        intro s hs
        rw [dlookup_dset_ne _ _ (fun hh => hrest s hs hh.symm)]
        exact hagree s (by rw [dkeys_cons]; exact List.mem_cons_of_mem _ hs)
      have ih := processCurrent_keys rest (dset ssid data known) known0 hnd.2 hagree'
      rw [show (processCurrent known ((ssid, data) :: rest)).2
            = (processCurrent (dset ssid data known) rest).2 by rw [processCurrent, hl]]
      rw [ih, dkeys_dset_absent _ hl]
      rw [show ((ssid, data) :: rest).filter (fun p => (dlookup p.1 known0).isNone)
            = (ssid, data) :: rest.filter (fun p => (dlookup p.1 known0).isNone) by
        rw [List.filter_cons]
        rw [if_pos (by show ((dlookup (ssid, data).1 known0).isNone) = true
                       rw [← hhead, hl]
                       rfl)]]
      rw [dkeys_cons, List.append_assoc, List.singleton_append]
    · have hagree' : ∀ s, s ∈ dkeys rest →
          dlookup s (dset ssid { old with signal := data.signal } known) = dlookup s known0 := by
        intro s hs
        rw [dlookup_dset_ne _ _ (fun hh => hrest s hs hh.symm)]
        exact hagree s (by rw [dkeys_cons]; exact List.mem_cons_of_mem _ hs)
      have ih := processCurrent_keys rest
        (dset ssid { old with signal := data.signal } known) known0 hnd.2 hagree'
      rw [show (processCurrent known ((ssid, data) :: rest)).2
            = (processCurrent (dset ssid { old with signal := data.signal } known) rest).2 by
        rw [processCurrent, hl]]
      rw [ih, dkeys_dset_present _ (by rw [hl]; rfl)]
      rw [show ((ssid, data) :: rest).filter (fun p => (dlookup p.1 known0).isNone)
            = rest.filter (fun p => (dlookup p.1 known0).isNone) by
        rw [List.filter_cons]
        rw [if_neg (by show ¬ ((dlookup (ssid, data).1 known0).isNone = true)
                       rw [← hhead, hl]
                       simp)]]

/-- The second loop emits one disappeared event per snapshot key missing
from the current scan, in snapshot order. -/
theorem sweepDisappeared_events :
    ∀ (kl : List String) (current : List (String × NetData)) (known : List (String × NetData)),
    (sweepDisappeared current kl known).1 =
      (kl.filter (fun s => (dlookup s current).isNone)).map ChangeEvent.disappeared
  | [], current, known => rfl
  | k :: rest, current, known => by
    rcases hl : dlookup k current with _ | w
    · rw [show sweepDisappeared current (k :: rest) known
            = (ChangeEvent.disappeared k ::
                (sweepDisappeared current rest (derase k known)).1,
               (sweepDisappeared current rest (derase k known)).2) by
        rw [sweepDisappeared, hl]]
      rw [sweepDisappeared_events rest current (derase k known)]
      rw [List.filter_cons, if_pos (by rw [hl]; rfl), List.map_cons]
  
    · rw [show sweepDisappeared current (k :: rest) known
            = sweepDisappeared current rest known by rw [sweepDisappeared, hl]]
      rw [sweepDisappeared_events rest current known]
      rw [List.filter_cons, if_neg (by rw [hl]; simp)]

/-- Lookup in the state after the second loop: a snapshot key missing
from the scan is gone; everything else is untouched. -/
theorem sweepDisappeared_lookup :
    ∀ (kl : List String) (current : List (String × NetData))
      (known : List (String × NetData)) (s : String),
    nodupKeys known →
    dlookup s (sweepDisappeared current kl known).2 =
      if s ∈ kl ∧ (dlookup s current).isNone then none else dlookup s known
  | [], current, known, s, _ => by
    rw [sweepDisappeared, if_neg (by simp)]
  | k :: rest, current, known, s, hnd => by
    rcases hl : dlookup k current with _ | w
    · rw [show (sweepDisappeared current (k :: rest) known).2
            = (sweepDisappeared current rest (derase k known)).2 by
        rw [sweepDisappeared, hl]]
      rw [sweepDisappeared_lookup rest current (derase k known) s (nodupKeys_derase hnd)]
      rw [dlookup_derase hnd]
      by_cases hs : s = k
      · subst hs
        simp [hl]
      · simp [hs, List.mem_cons]
    · rw [show (sweepDisappeared current (k :: rest) known).2
            = (sweepDisappeared current rest known).2 by
        rw [sweepDisappeared, hl]]
      rw [sweepDisappeared_lookup rest current known s hnd]
      by_cases hs : s = k
      · subst hs
        simp [hl]
      · simp [hs, List.mem_cons]

/-! ### Counting events per identifier -/

def isAppearedFor (s : String) : ChangeEvent → Bool
  | .appeared ssid _ => ssid = s
  | _ => false

def isStrengthenedFor (s : String) : ChangeEvent → Bool
  | .strengthened ssid _ _ => ssid = s
  | _ => false

def isDisappearedFor (s : String) : ChangeEvent → Bool
  | .disappeared ssid => ssid = s
  | _ => false

/-- Is the event about identifier `s`? -/
def evTouches (s : String) (e : ChangeEvent) : Bool := evId e = s

/-- Did `s`, present in both states, jump by strictly more than the
threshold 20? -/
def signalJump (known cur : List (String × NetData)) (s : String) : Bool :=
  match dlookup s cur, dlookup s known with
  | some d, some w => d.signal > w.signal + 20
  | _, _ => false

theorem countP_filterMap_eventFor_zero {s : String} (q : ChangeEvent → Bool)
    (hq : ∀ e, q e = true → evId e = s)
    (cur known : List (String × NetData)) (hs : s ∉ dkeys cur) :
    (cur.filterMap (eventFor known)).countP q = 0 := by
  rw [List.countP_eq_zero]
  intro e he
  rcases List.mem_filterMap.mp he with ⟨p, hp, hep⟩
  intro hqe
  apply hs
  rw [← hq e hqe, eventFor_evId hep]
  exact List.mem_map_of_mem Prod.fst hp

theorem countP_filterMap_eventFor {s : String} (q : ChangeEvent → Bool)
    (hq : ∀ e, q e = true → evId e = s) :
    ∀ (cur : List (String × NetData)) (known : List (String × NetData)),
    (dkeys cur).Nodup →
    (cur.filterMap (eventFor known)).countP q =
      (match dlookup s cur with
       | none => 0
       | some d =>
           match eventFor known (s, d) with
           | some e => if q e then 1 else 0
           | none => 0)
  | [], known, _ => by rw [dlookup]; rfl
  | (k, dd) :: rest, known, hnd => by
    rw [dkeys_cons, List.nodup_cons] at hnd
    by_cases hk : k = s
    · subst hk
      rw [show dlookup k ((k, dd) :: rest) = some dd by rw [dlookup, if_pos rfl]]
      rcases hef : eventFor known (k, dd) with _ | e
      · rw [List.filterMap_cons_none hef]
        rw [countP_filterMap_eventFor_zero q hq rest known hnd.1]
        simp [hef]
      · rw [List.filterMap_cons_some hef, List.countP_cons,
          countP_filterMap_eventFor_zero q hq rest known hnd.1]
        simp [hef]
    · rw [show dlookup s ((k, dd) :: rest) = dlookup s rest by rw [dlookup, if_neg hk]]
      have ih := countP_filterMap_eventFor (s := s) q hq rest known hnd.2
      rcases hef : eventFor known (k, dd) with _ | e
      · rw [List.filterMap_cons_none hef, ih]
      · rw [List.filterMap_cons_some hef, List.countP_cons, ih]
        have hqe : q e = false := by
          rcases hb : q e with _ | _
          · rfl
          · exact absurd (by rw [← hq e hb, eventFor_evId hef]) hk
        rw [hqe]
        simp

theorem countP_disappeared_zero {s : String} (q : ChangeEvent → Bool)
    (hq : ∀ e, q e = true → evId e = s) (kl : List String) (hs : s ∉ kl) :
    (kl.map ChangeEvent.disappeared).countP q = 0 := by
  rw [List.countP_eq_zero]
  intro e he
  rcases List.mem_map.mp he with ⟨k, hk, hke⟩
  intro hqe
  apply hs
  rw [← hq e hqe, ← hke]
  show k ∈ kl
  exact hk

theorem countP_disappeared_map {s : String} (q : ChangeEvent → Bool)
    (hq : ∀ e, q e = true → evId e = s) (pred : String → Bool) :
    ∀ kl : List String, kl.Nodup →
    ((kl.filter pred).map ChangeEvent.disappeared).countP q =
      if s ∈ kl ∧ pred s = true then
        (if q (ChangeEvent.disappeared s) then 1 else 0)
      else 0
  | [], _ => by simp
  | k :: rest, hnd => by
    rw [List.nodup_cons] at hnd
    have ih := countP_disappeared_map (s := s) q hq pred rest hnd.2
    by_cases hk : k = s
    · subst hk
      have hrest0 : k ∈ rest ∧ pred k = true → False := fun hh => hnd.1 hh.1
      by_cases hp : pred k = true
      · rw [show (k :: rest).filter pred = k :: rest.filter pred by
          rw [List.filter_cons, if_pos hp]]
        rw [List.map_cons, List.countP_cons, ih, if_neg hrest0]
        simp [hp]
      · rw [show (k :: rest).filter pred = rest.filter pred by
          rw [List.filter_cons, if_neg hp]]
        rw [ih, if_neg hrest0,
          if_neg (fun hh => hp hh.2)]
    · have hmem : (s ∈ k :: rest ∧ pred s = true) ↔ (s ∈ rest ∧ pred s = true) := by
        constructor
        · intro hh
          rcases List.mem_cons.mp hh.1 with h1 | h1
          · exact absurd h1.symm hk
          · exact ⟨h1, hh.2⟩
        · intro hh
          exact ⟨List.mem_cons_of_mem _ hh.1, hh.2⟩
      by_cases hp : pred k = true
      · rw [show (k :: rest).filter pred = k :: rest.filter pred by
          rw [List.filter_cons, if_pos hp]]
        rw [List.map_cons, List.countP_cons, ih]
        have hqd : q (ChangeEvent.disappeared k) = false := by
          rcases hb : q (ChangeEvent.disappeared k) with _ | _
          · rfl
          · exact absurd (hq _ hb) hk
        rw [hqd]
        by_cases hin : s ∈ rest ∧ pred s = true
        · rw [if_pos hin, if_pos (hmem.mpr hin)]
          simp
        · rw [if_neg hin, if_neg (fun hh => hin (hmem.mp hh))]
          simp
      · rw [show (k :: rest).filter pred = rest.filter pred by
          rw [List.filter_cons, if_neg hp]]
        rw [ih]
        by_cases hin : s ∈ rest ∧ pred s = true
        · rw [if_pos hin, if_pos (hmem.mpr hin)]
        · rw [if_neg hin, if_neg (fun hh => hin (hmem.mp hh))]

/-! ### Assembling the full diff -/

theorem analyze_fst (known cur : List (String × NetData)) :
    (analyze_network_changes known cur).1 =
      (processCurrent known cur).1 ++
        (sweepDisappeared cur (dkeys (processCurrent known cur).2)
          (processCurrent known cur).2).1 := rfl

theorem analyze_snd (known cur : List (String × NetData)) :
    (analyze_network_changes known cur).2 =
      (sweepDisappeared cur (dkeys (processCurrent known cur).2)
        (processCurrent known cur).2).2 := rfl

theorem mem_dkeys_filter_key {α : Type} (f : String → Bool) (d : List (String × α))
    (s : String) :
    s ∈ dkeys (d.filter (fun p => f p.1)) ↔ s ∈ dkeys d ∧ f s = true := by
  constructor
  · intro h
    rcases mem_dkeys_mem h with ⟨v, hv⟩
    rcases List.mem_filter.mp hv with ⟨h1, h2⟩
    exact ⟨List.mem_map_of_mem Prod.fst h1, h2⟩
  · intro h
    rcases mem_dkeys_mem h.1 with ⟨v, hv⟩
    exact List.mem_map_of_mem Prod.fst (List.mem_filter.mpr ⟨hv, h.2⟩)

theorem processCurrent_keys_nodup {known cur : List (String × NetData)}
    (hk : nodupKeys known) (hc : nodupKeys cur) :
    nodupKeys (processCurrent known cur).2 := by
  rw [nodupKeys, processCurrent_keys cur known known hc (fun _ _ => rfl),
    List.nodup_append]
  refine ⟨hk, ?_, ?_⟩
  · exact List.Nodup.sublist (List.Sublist.map Prod.fst (List.filter_sublist cur)) hc
  · intro x hx hx2
    rcases (mem_dkeys_filter_key (fun t => (dlookup t known).isNone) cur x).mp hx2 with ⟨_, h2⟩
    rw [Option.isNone_iff_eq_none, dlookup_none_iff] at h2
    exact h2 hx

theorem mem_processCurrent_keys {known cur : List (String × NetData)}
    (hc : nodupKeys cur) (s : String) :
    s ∈ dkeys (processCurrent known cur).2 ↔ s ∈ dkeys known ∨ s ∈ dkeys cur := by
  rw [processCurrent_keys cur known known hc (fun _ _ => rfl), List.mem_append,
    mem_dkeys_filter_key (fun t => (dlookup t known).isNone) cur s]
  constructor
  · intro h
    rcases h with h | h
    · exact Or.inl h
    · exact Or.inr h.1
  · intro h
    rcases h with h | h
    · exact Or.inl h
    · by_cases hk : s ∈ dkeys known
      · exact Or.inl hk
      · exact Or.inr ⟨h, by rw [Option.isNone_iff_eq_none, dlookup_none_iff]; exact hk⟩

/-- After the full diff, an identifier is live exactly when it is in the
current scan. -/
theorem analyze_mem_keys {known cur : List (String × NetData)}
    (hk : nodupKeys known) (hc : nodupKeys cur) (s : String) :
    s ∈ dkeys (analyze_network_changes known cur).2 ↔ s ∈ dkeys cur := by
  rw [← dlookup_isSome_iff, analyze_snd,
    sweepDisappeared_lookup _ _ _ _ (processCurrent_keys_nodup hk hc)]
  rcases hcl : dlookup s cur with _ | d
  · have hsc : s ∉ dkeys cur := dlookup_none_iff.mp hcl
    by_cases hmem : s ∈ dkeys (processCurrent known cur).2
    · rw [if_pos ⟨hmem, rfl⟩]
      simp [hsc]
    · rw [if_neg (fun hh => hmem hh.1)]
      rw [dlookup_none_iff.mpr hmem]
      simp [hsc]
  · rw [if_neg (fun hh => by simpa using hh.2)]
    rw [processCurrent_lookup cur known s hc, hcl]
    have hmm : s ∈ dkeys cur := dlookup_isSome_iff.mp (by rw [hcl]; rfl)
    rcases dlookup s known with _ | w <;> simp [hmm]

/-- If the state already stores every scanned identifier with the
scanned signal, the first loop leaves it untouched. -/
theorem processCurrent_fix :
    ∀ (cur st : List (String × NetData)),
    (∀ p ∈ cur, ∃ v, dlookup p.1 st = some v ∧ v.signal = p.2.signal) →
    (processCurrent st cur).2 = st
  | [], st, _ => rfl
  | (ssid, data) :: rest, st, h => by
    rcases h (ssid, data) (List.mem_cons_self _ _) with ⟨v, hv, hsig⟩
    rw [show (processCurrent st ((ssid, data) :: rest)).2
          = (processCurrent (dset ssid { v with signal := data.signal } st) rest).2 by
      rw [processCurrent, hv]]
    have hvv : ({ v with signal := data.signal } : NetData) = v := by
      rcases v with ⟨vs, vf⟩
      simp at hsig ⊢
      rw [hsig]
    rw [hvv, dset_lookup_self hv]
    exact processCurrent_fix rest st (fun p hp => h p (List.mem_cons_of_mem _ hp))

/-- If every snapshot key is still scanned, the second loop does
nothing. -/
theorem sweepDisappeared_fix :
    ∀ (kl : List String) (cur st : List (String × NetData)),
    (∀ k ∈ kl, (dlookup k cur).isSome) →
    sweepDisappeared cur kl st = ([], st)
  | [], cur, st, _ => rfl
  | k :: rest, cur, st, h => by
    have hk := h k (List.mem_cons_self _ _)
    rcases hl : dlookup k cur with _ | w
    · rw [hl] at hk
      exact absurd hk (by simp)
    · rw [show sweepDisappeared cur (k :: rest) st = sweepDisappeared cur rest st by
        rw [sweepDisappeared, hl]]
      exact sweepDisappeared_fix rest cur st (fun x hx => h x (List.mem_cons_of_mem _ hx))

/-! ### Event-kind helper lemmas -/

theorem evId_of_isAppearedFor {s : String} {e : ChangeEvent}
    (h : isAppearedFor s e = true) : evId e = s := by
  cases e with
  | appeared ssid sig =>
      simp [isAppearedFor] at h
      simpa [evId] using h
  | strengthened ssid a b => simp [isAppearedFor] at h
  | disappeared ssid => simp [isAppearedFor] at h

theorem evId_of_isStrengthenedFor {s : String} {e : ChangeEvent}
    (h : isStrengthenedFor s e = true) : evId e = s := by
  cases e with
  | appeared ssid sig => simp [isStrengthenedFor] at h
  | strengthened ssid a b =>
      simp [isStrengthenedFor] at h
      simpa [evId] using h
  | disappeared ssid => simp [isStrengthenedFor] at h

theorem evId_of_isDisappearedFor {s : String} {e : ChangeEvent}
    (h : isDisappearedFor s e = true) : evId e = s := by
  cases e with
  | appeared ssid sig => simp [isDisappearedFor] at h
  | strengthened ssid a b => simp [isDisappearedFor] at h
  | disappeared ssid =>
      simp [isDisappearedFor] at h
      simpa [evId] using h

theorem evId_of_evTouches {s : String} {e : ChangeEvent}
    (h : evTouches s e = true) : evId e = s := by
  rw [evTouches] at h
  exact of_decide_eq_true h

/-! ### Claim theorems for `analyze_network_changes` -/

/-- C1: per cycle, the diff emits exactly one Appeared event per
identifier in the scan but not in known-state, exactly one Disappeared
event per identifier in known-state but not in the scan, exactly one
StrengthenedSignificantly event per identifier in both whose signal
jumped by strictly more than the threshold, nothing for any other
identifier — and at most one event per identifier overall. -/
theorem claim1_one_event_per_identifier (known cur : List (String × NetData))
    (hk : nodupKeys known) (hc : nodupKeys cur) (s : String) :
    ((analyze_network_changes known cur).1.countP (isAppearedFor s) =
        if s ∈ dkeys cur ∧ s ∉ dkeys known then 1 else 0) ∧
    ((analyze_network_changes known cur).1.countP (isDisappearedFor s) =
        if s ∈ dkeys known ∧ s ∉ dkeys cur then 1 else 0) ∧
    ((analyze_network_changes known cur).1.countP (isStrengthenedFor s) =
        if signalJump known cur s = true then 1 else 0) ∧
    (analyze_network_changes known cur).1.countP (evTouches s) ≤ 1 := by
  have hproc := processCurrent_events cur known known hc (fun _ _ => rfl)
  have hkeys := processCurrent_keys_nodup hk hc
  have hcount : ∀ q : ChangeEvent → Bool, (∀ e, q e = true → evId e = s) →
      (analyze_network_changes known cur).1.countP q =
        (match dlookup s cur with
         | none => 0
         | some d =>
             match eventFor known (s, d) with
             | some e => if q e then 1 else 0
             | none => 0) +
        (if s ∈ dkeys (processCurrent known cur).2 ∧ (dlookup s cur).isNone = true then
          (if q (ChangeEvent.disappeared s) then 1 else 0)
         else 0) := by
    intro q hq
    rw [analyze_fst, hproc, sweepDisappeared_events, List.countP_append]
    rw [countP_filterMap_eventFor q hq cur known hc]
    rw [countP_disappeared_map q hq (fun t => (dlookup t cur).isNone)
      (dkeys (processCurrent known cur).2) hkeys]
  refine ⟨?_, ?_, ?_, ?_⟩
  · rw [hcount _ (fun e => evId_of_isAppearedFor)]
    rcases hcl : dlookup s cur with _ | d
    · have hmc : s ∉ dkeys cur := dlookup_none_iff.mp hcl
      simp [isAppearedFor, hmc]
    · have hmc : s ∈ dkeys cur := dlookup_isSome_iff.mp (by rw [hcl]; rfl)
      rw [if_neg (fun hh => by simpa using hh.2)]
      rcases hkl : dlookup s known with _ | w
      · have hmk : s ∉ dkeys known := dlookup_none_iff.mp hkl
        simp [eventFor, hkl, isAppearedFor, hmc, hmk]
      · have hmk : s ∈ dkeys known := dlookup_isSome_iff.mp (by rw [hkl]; rfl)
        by_cases hgt : d.signal > w.signal + 20
        · simp [eventFor, hkl, hgt, isAppearedFor, hmc, hmk]
        · simp [eventFor, hkl, hgt, isAppearedFor, hmc, hmk]
  · rw [hcount _ (fun e => evId_of_isDisappearedFor)]
    rcases hcl : dlookup s cur with _ | d
    · have hmc : s ∉ dkeys cur := dlookup_none_iff.mp hcl
      by_cases hmk : s ∈ dkeys known
      · have hmem : s ∈ dkeys (processCurrent known cur).2 :=
          (mem_processCurrent_keys hc s).mpr (Or.inl hmk)
        rw [if_pos ⟨hmem, rfl⟩]
        simp [isDisappearedFor, hmc, hmk]
      · have hmem : s ∉ dkeys (processCurrent known cur).2 := by
          rw [mem_processCurrent_keys hc s]
          rintro (h | h)
          · exact hmk h
          · exact hmc h
        rw [if_neg (fun hh => hmem hh.1)]
        simp [hmc, hmk]
    · have hmc : s ∈ dkeys cur := dlookup_isSome_iff.mp (by rw [hcl]; rfl)
      rw [if_neg (fun hh => by simpa using hh.2)]
      rcases hkl : dlookup s known with _ | w
      · simp [eventFor, hkl, isDisappearedFor, hmc]
      · by_cases hgt : d.signal > w.signal + 20 <;>
          simp [eventFor, hkl, hgt, isDisappearedFor, hmc]
  · rw [hcount _ (fun e => evId_of_isStrengthenedFor)]
    rcases hcl : dlookup s cur with _ | d
    · simp [signalJump, hcl, isStrengthenedFor]
    · rw [if_neg (fun hh => by simpa using hh.2)]
      rcases hkl : dlookup s known with _ | w
      · simp [signalJump, hcl, hkl, eventFor, isStrengthenedFor]
      · by_cases hgt : d.signal > w.signal + 20 <;>
          simp [signalJump, hcl, hkl, hgt, eventFor, isStrengthenedFor]
  · rw [hcount _ (fun e => evId_of_evTouches)]
    rcases hcl : dlookup s cur with _ | d
    · by_cases hmk : s ∈ dkeys (processCurrent known cur).2
      · rw [if_pos ⟨hmk, rfl⟩]
        simp [evTouches, evId]
      · rw [if_neg (fun hh => hmk hh.1)]
        simp
    · rw [if_neg (fun hh => by simpa using hh.2)]
      rcases hkl : dlookup s known with _ | w
      · simp [eventFor, hkl, evTouches, evId]
      · by_cases hgt : d.signal > w.signal + 20 <;>
          simp [eventFor, hkl, hgt, evTouches, evId]

theorem claim1_witness :
    nodupKeys ([("A", ⟨40, 0⟩), ("B", ⟨10, 0⟩)] : List (String × NetData)) ∧
    nodupKeys ([("B", ⟨45, 1⟩), ("C", ⟨70, 1⟩)] : List (String × NetData)) ∧
    (((analyze_network_changes [("A", ⟨40, 0⟩), ("B", ⟨10, 0⟩)]
          [("B", ⟨45, 1⟩), ("C", ⟨70, 1⟩)]).1.countP (isAppearedFor "B") =
        if "B" ∈ dkeys ([("B", ⟨45, 1⟩), ("C", ⟨70, 1⟩)] : List (String × NetData)) ∧
            "B" ∉ dkeys ([("A", ⟨40, 0⟩), ("B", ⟨10, 0⟩)] : List (String × NetData)) then 1 else 0) ∧
      ((analyze_network_changes [("A", ⟨40, 0⟩), ("B", ⟨10, 0⟩)]
          [("B", ⟨45, 1⟩), ("C", ⟨70, 1⟩)]).1.countP (isDisappearedFor "B") =
        if "B" ∈ dkeys ([("A", ⟨40, 0⟩), ("B", ⟨10, 0⟩)] : List (String × NetData)) ∧
            "B" ∉ dkeys ([("B", ⟨45, 1⟩), ("C", ⟨70, 1⟩)] : List (String × NetData)) then 1 else 0) ∧
      ((analyze_network_changes [("A", ⟨40, 0⟩), ("B", ⟨10, 0⟩)]
          [("B", ⟨45, 1⟩), ("C", ⟨70, 1⟩)]).1.countP (isStrengthenedFor "B") =
        if signalJump [("A", ⟨40, 0⟩), ("B", ⟨10, 0⟩)] [("B", ⟨45, 1⟩), ("C", ⟨70, 1⟩)] "B" = true
         then 1 else 0) ∧
      (analyze_network_changes [("A", ⟨40, 0⟩), ("B", ⟨10, 0⟩)]
          [("B", ⟨45, 1⟩), ("C", ⟨70, 1⟩)]).1.countP (evTouches "B") ≤ 1) :=
  ⟨by decide, by decide,
    claim1_one_event_per_identifier _ _ (by decide) (by decide) "B"⟩

/-- C2: for an identifier present in both states, a StrengthenedSignificantly
event is emitted exactly when the new signal strictly exceeds the old
signal plus the threshold 20; in particular an increase of exactly 20
emits nothing while an increase of 21 does. -/
theorem claim2_threshold_strict (s : String) (old n : Int) (t t' : Nat) :
    ((analyze_network_changes [(s, ⟨old, t⟩)] [(s, ⟨n, t'⟩)]).1 =
        if n > old + 20 then [ChangeEvent.strengthened s old n] else []) ∧
    (analyze_network_changes [(s, ⟨old, t⟩)] [(s, ⟨old + 20, t'⟩)]).1 = [] ∧
    (analyze_network_changes [(s, ⟨old, t⟩)] [(s, ⟨old + 21, t'⟩)]).1 =
      [ChangeEvent.strengthened s old (old + 21)] := by
  have hgen : ∀ m : Int, (analyze_network_changes [(s, ⟨old, t⟩)] [(s, ⟨m, t'⟩)]).1 =
      if m > old + 20 then [ChangeEvent.strengthened s old m] else [] := by
    intro m
    by_cases hgt : m > old + 20 <;>
      simp [analyze_network_changes, processCurrent, sweepDisappeared, dlookup, dset,
        dkeys, hgt]
  refine ⟨hgen n, ?_, ?_⟩
  · rw [hgen (old + 20), if_neg (by omega)]
  · rw [hgen (old + 21), if_pos (by omega)]

/-- C3: after the diff-and-update step the identifiers of the in-memory
known-network state are exactly the identifiers of the latest scan. -/
theorem claim3_state_keys_equal_scan (known cur : List (String × NetData))
    (hk : nodupKeys known) (hc : nodupKeys cur) (s : String) :
    s ∈ dkeys (analyze_network_changes known cur).2 ↔ s ∈ dkeys cur :=
  analyze_mem_keys hk hc s

theorem claim3_witness :
    nodupKeys ([("A", ⟨50, 0⟩)] : List (String × NetData)) ∧
    nodupKeys ([("B", ⟨70, 1⟩)] : List (String × NetData)) ∧
    ("B" ∈ dkeys (analyze_network_changes [("A", ⟨50, 0⟩)] [("B", ⟨70, 1⟩)]).2 ↔
      "B" ∈ dkeys ([("B", ⟨70, 1⟩)] : List (String × NetData))) :=
  ⟨by decide, by decide,
    claim3_state_keys_equal_scan [("A", ⟨50, 0⟩)] [("B", ⟨70, 1⟩)] (by decide) (by decide) "B"⟩

/-- C8: running the diff-and-update step a second time with the same
scan leaves the known-network state unchanged (`updated_state` is
idempotent in its current-scan argument). -/
theorem claim8_updated_state_idempotent (known cur : List (String × NetData))
    (hk : nodupKeys known) (hc : nodupKeys cur) :
    (analyze_network_changes (analyze_network_changes known cur).2 cur).2 =
      (analyze_network_changes known cur).2 := by
  set st1 := (analyze_network_changes known cur).2 with hst1
  have hlook : ∀ p ∈ cur, ∃ v, dlookup p.1 st1 = some v ∧ v.signal = p.2.signal := by
    intro p hp
    have hpc : dlookup p.1 cur = some p.2 := mem_dlookup hc hp
    rw [hst1, analyze_snd, sweepDisappeared_lookup _ _ _ _ (processCurrent_keys_nodup hk hc)]
    rw [if_neg (fun hh => by rw [hpc] at hh; simpa using hh.2)]
    rw [processCurrent_lookup cur known p.1 hc, hpc]
    rcases dlookup p.1 known with _ | w
    · exact ⟨p.2, rfl, rfl⟩
    · exact ⟨{ w with signal := p.2.signal }, rfl, rfl⟩
  have hkeys : ∀ k ∈ dkeys st1, (dlookup k cur).isSome := by
    intro k hkk
    rw [dlookup_isSome_iff]
    rw [hst1] at hkk
    exact (analyze_mem_keys hk hc k).mp hkk
  rw [analyze_snd, processCurrent_fix cur st1 hlook, sweepDisappeared_fix (dkeys st1) cur st1 hkeys]

theorem claim8_witness :
    nodupKeys ([("A", ⟨40, 0⟩)] : List (String × NetData)) ∧
    nodupKeys ([("B", ⟨50, 1⟩)] : List (String × NetData)) ∧
    (analyze_network_changes
        (analyze_network_changes [("A", ⟨40, 0⟩)] [("B", ⟨50, 1⟩)]).2 [("B", ⟨50, 1⟩)]).2 =
      (analyze_network_changes [("A", ⟨40, 0⟩)] [("B", ⟨50, 1⟩)]).2 :=
  ⟨by decide, by decide,
    claim8_updated_state_idempotent [("A", ⟨40, 0⟩)] [("B", ⟨50, 1⟩)] (by decide) (by decide)⟩

/-! ### Scan failure (claim C4) -/

/-- Sweeping the full key list of a state against an empty scan
announces every key as disappeared and empties the state. -/
theorem sweep_empty_all :
    ∀ known : List (String × NetData),
    sweepDisappeared [] (dkeys known) known =
      ((dkeys known).map ChangeEvent.disappeared, [])
  | [] => rfl
  | (k, v) :: rest => by
    rw [show sweepDisappeared [] (dkeys ((k, v) :: rest)) ((k, v) :: rest)
          = (ChangeEvent.disappeared k ::
              (sweepDisappeared [] (dkeys rest) (derase k ((k, v) :: rest))).1,
             (sweepDisappeared [] (dkeys rest) (derase k ((k, v) :: rest))).2) by
      rw [dkeys_cons, sweepDisappeared, dlookup]]
    rw [show derase k ((k, v) :: rest) = rest by rw [derase, if_pos rfl]]
    rw [sweep_empty_all rest, dkeys_cons, List.map_cons]

/-- C4 counterexample: a failed scan is turned into `{}` by
`get_networks` and then fed to the diff, which announces the known
network "Home" as out of range and empties the in-memory state — the
claim said known-state is not advanced and no Disappeared events are
produced. -/
theorem claim4_counterexample :
    monitoring_cycle [("Home", ⟨50, 0⟩)] (Except.error "scan failed") 0 =
      ([ChangeEvent.disappeared "Home"], []) := by decide

/-- C4 (amended): when the scan fails the cycle does log and continue
with an empty observation set without crashing, but that empty set is
passed straight to the diff step, which emits one Disappeared event for
every known network (in stored order) and empties the in-memory
known-network state. -/
theorem claim4_scan_failure_mass_disappear (known : List (String × NetData))
    (e : String) (now : Nat) :
    monitoring_cycle known (Except.error e) now =
      ((dkeys known).map ChangeEvent.disappeared, []) := by
  show analyze_network_changes known [] = _
  rw [show analyze_network_changes known []
        = ((sweepDisappeared [] (dkeys known) known).1,
           (sweepDisappeared [] (dkeys known) known).2) by rfl]
  rw [sweep_empty_all known]

/-! ### Clamping (claim C5) -/

/-- Modelled from the spec: §4.1's failure semantics — "malformed input
(negative or >100 signal) is clamped to [0,100] before comparison".  No
clamping code exists anywhere in the source; the clamp is modelled here
from the spec's words only to compare the two behaviours. -/
def clampSignal (x : Int) : Int := max 0 (min 100 x)

/-- Modelled from the spec: the diff as the spec describes it, with
every incoming observation's signal clamped to [0,100] before any
comparison. -/
def analyze_clamped (known current : List (String × NetData)) :
    List ChangeEvent × List (String × NetData) :=
  analyze_network_changes known
    (current.map (fun p => (p.1, { p.2 with signal := clampSignal p.2.signal })))

/-- C5 counterexample: with previous signal 100 and a malformed current
signal of 150, the source diff emits a StrengthenedSignificantly event
carrying the raw out-of-range value 150, while the spec's clamped diff
emits nothing — so no clamping happens before comparison. -/
theorem claim5_counterexample :
    (analyze_network_changes [("A", ⟨100, 0⟩)] [("A", ⟨150, 1⟩)]).1 =
        [ChangeEvent.strengthened "A" 100 150] ∧
    (analyze_clamped [("A", ⟨100, 0⟩)] [("A", ⟨150, 1⟩)]).1 = [] := by decide

/-- C5 (amended): the diff never clamps: for every integer signal,
malformed or not, it compares and stores the raw value (it is a total
function, so it indeed cannot fail on any input — but not because of any
clamping). -/
theorem claim5_no_clamping (s : String) (old n : Int) (t t' : Nat) :
    analyze_network_changes [(s, ⟨old, t⟩)] [(s, ⟨n, t'⟩)] =
      ((if n > old + 20 then [ChangeEvent.strengthened s old n] else []),
       [(s, ⟨n, t⟩)]) := by
  by_cases hgt : n > old + 20 <;>
    simp [analyze_network_changes, processCurrent, sweepDisappeared, dlookup, dset,
      dkeys, hgt]

/-! ### Diff keying (claims C6 and C7) -/

theorem mem_dkeys_dset {α : Type} {x k : String} {v : α} :
    ∀ {d : List (String × α)}, x ∈ dkeys (dset k v d) → x = k ∨ x ∈ dkeys d
  | [], h => by
    rw [dset] at h
    rcases List.mem_cons.mp h with h1 | h1
    · exact Or.inl h1
    · exact absurd h1 (by simp [dkeys])
  | (k', v') :: rest, h => by
    by_cases hp : k' = k
    · rw [show dset k v ((k', v') :: rest) = (k, v) :: rest by rw [dset, if_pos hp]] at h
      rcases List.mem_cons.mp h with h1 | h1
      · exact Or.inl h1
      · exact Or.inr (by rw [dkeys_cons]; exact List.mem_cons_of_mem _ h1)
    · rw [show dset k v ((k', v') :: rest) = (k', v') :: dset k v rest by
        rw [dset, if_neg hp]] at h
      rcases List.mem_cons.mp h with h1 | h1
      · exact Or.inr (by rw [dkeys_cons]; exact List.mem_cons.mpr (Or.inl h1))
      · rcases mem_dkeys_dset h1 with h2 | h2
        · exact Or.inl h2
        · exact Or.inr (by rw [dkeys_cons]; exact List.mem_cons_of_mem _ h2)

/-- The parsing loop keeps the dict keys duplicate-free: one entry per
SSID string, however many distinct access points share that name. -/
theorem parseLines_nodupKeys (now : Nat) :
    ∀ (lines : List (List Char)) (networks : List (String × NetData)) (cs : Option String),
    nodupKeys networks → nodupKeys (parseLines now lines networks cs)
  | [], networks, cs, h => h
  | line :: rest, networks, cs, h => by
    simp only [parseLines]
    split
    · split
      · exact parseLines_nodupKeys now rest _ _ (nodupKeys_dset _ h)
      · exact parseLines_nodupKeys now rest _ _ h
    · split
      · split
        · split
          · exact parseLines_nodupKeys now rest _ _ (nodupKeys_dset _ h)
          · exact parseLines_nodupKeys now rest _ _ h
        · exact parseLines_nodupKeys now rest _ _ h
      · exact parseLines_nodupKeys now rest _ _ h

/-- The parsing loop never creates an entry with an empty SSID key. -/
theorem parseLines_no_empty_key (now : Nat) :
    ∀ (lines : List (List Char)) (networks : List (String × NetData)) (cs : Option String),
    "" ∉ dkeys networks → cs ≠ some "" → "" ∉ dkeys (parseLines now lines networks cs)
  | [], networks, cs, h, _ => h
  | line :: rest, networks, cs, h, hcs => by
    simp only [parseLines]
    split
    · split
      · next hne =>
          refine parseLines_no_empty_key now rest _ _ ?_ ?_
          · intro hmem
            rcases mem_dkeys_dset hmem with h1 | h1
            · exact hne h1.symm
            · exact h h1
          · intro he
            exact hne (Option.some_inj.mp he.symm).symm
      · exact parseLines_no_empty_key now rest _ _ h hcs
    · split
      · split
        · next cs' =>
            split
            · refine parseLines_no_empty_key now rest _ _ ?_ hcs
              intro hmem
              rcases mem_dkeys_dset hmem with h1 | h1
              · exact hcs (by rw [← h1])
              · exact h h1
            · exact parseLines_no_empty_key now rest _ _ h hcs
        · exact parseLines_no_empty_key now rest _ _ h hcs
      · exact parseLines_no_empty_key now rest _ _ h hcs

/-- C6 counterexample: two access points with distinct hardware
addresses but the same advertised name "X" collapse into a single
SSID-keyed entry holding the last-parsed signal, and the diff then emits
a single Appeared event for the pair — so the diff is keyed by display
name, not by the hardware address. -/
theorem claim6_counterexample :
    get_networks (Except.ok
        "SSID 1 : X\nBSSID 1 : aa:bb:cc:dd:ee:01\nSignal : 50%\nBSSID 2 : aa:bb:cc:dd:ee:02\nSignal : 90%") 7 =
      [("X", ⟨90, 7⟩)] ∧
    (analyze_network_changes [] (get_networks (Except.ok
        "SSID 1 : X\nBSSID 1 : aa:bb:cc:dd:ee:01\nSignal : 50%\nBSSID 2 : aa:bb:cc:dd:ee:02\nSignal : 90%") 7)).1 =
      [ChangeEvent.appeared "X" 90] := by decide

/-- C6 (amended): in `phone-detector.py` the diff is keyed by the
advertised network name, not the hardware address: the scan dict holds
at most one entry per SSID string, so access points sharing a name are
tracked as one entry (and, per C7, empty names are dropped). -/
theorem claim6_keyed_by_name (output : String) (now : Nat) :
    nodupKeys (get_networks (Except.ok output) now) := by
  rw [get_networks]
  exact parseLines_nodupKeys now _ [] none (by rw [nodupKeys]; exact List.nodup_nil)

/-- C7 counterexample: an observation with an empty display name is
dropped, not diffed: `get_networks` skips the empty SSID entirely (so no
Appeared event can be generated for it, despite signal 85 > 60), and the
database-backed monitor skips the empty-SSID network without announcing
or tracking it. -/
theorem claim7_counterexample :
    get_networks (Except.ok "SSID 1 : \nSignal : 85%") 0 = [] ∧
    (analyze_network_changes [] (get_networks (Except.ok "SSID 1 : \nSignal : 85%") 0)).1 = [] ∧
    monitorCycle (fun _ => none) 0 ⟨[], []⟩ [⟨"BB:2", ""⟩] = ([], [], ⟨[], []⟩) := by
  decide

/-- C7 (amended): observations with an empty display name are excluded
from tracking altogether: the parser of `phone-detector.py` never
produces an entry keyed by the empty name, and the monitor loop of
`wifi-monitor(1).py` skips such a network, producing no announcement, no
prompt and no state change. -/
theorem claim7_empty_names_dropped :
    (∀ (output : String) (now : Nat), "" ∉ dkeys (get_networks (Except.ok output) now)) ∧
    (∀ (oracle : String → Option String) (now : Nat) (st : WifiState) (b : String),
      processNetwork oracle now st ⟨b, ""⟩ = ([], [], st)) := by
  constructor
  · intro output now
    rw [get_networks]
    refine parseLines_no_empty_key now _ [] none ?_ ?_
    · simp [dkeys]
    · simp
  · intro oracle now st b
    simp [processNetwork]

/-! ### The database-backed monitor (claims C9 and C10) -/

/-- One monitor step either leaves the cache unchanged or inserts a
record for the (previously unknown) scanned BSSID. -/
theorem processNetwork_known_char (oracle : String → Option String) (now : Nat)
    (st : WifiState) (net : ScanEntry) :
    (processNetwork oracle now st net).2.2.known = st.known ∨
    (dlookup net.bssid st.known = none ∧
      (processNetwork oracle now st net).2.2.known =
        dset net.bssid ⟨net.ssid, oracle net.bssid⟩ st.known) := by
  by_cases hss : net.ssid = ""
  · left
    simp [processNetwork, hss]
  · rcases hl : dlookup net.bssid st.known with _ | r0
    · by_cases ht : truthy (oracle net.bssid) = true
      · by_cases hdb : st.db.any (fun r => r.bssid = net.bssid) = true
        · left
          simp [processNetwork, hss, hl, prompt_for_name, ht, hdb]
        · right
          refine ⟨rfl, ?_⟩
          simp [processNetwork, hss, hl, prompt_for_name, ht, hdb]
      · left
        simp [processNetwork, hss, hl, prompt_for_name, ht]
    · left
      simp [processNetwork, hss, hl]

/-- C9 (amended): on every cycle, every scanned network with a non-empty
SSID whose BSSID is already cached with a non-empty custom label is
announced again as "Detected <label>", regardless of whether anything
changed since the previous cycle. -/
theorem claim9_known_labels_reannounced (oracle : String → Option String) (now : Nat) :
    ∀ (nets : List ScanEntry) (st : WifiState) (net : ScanEntry) (r : KnownRec) (c : String),
    net ∈ nets → net.ssid ≠ "" →
    dlookup net.bssid st.known = some r →
    r.custom_name = some c → c ≠ "" →
    WAnnouncement.detected c ∈ (monitorCycle oracle now st nets).1
  | [], st, net, r, c, hmem, _, _, _, _ => absurd hmem (by simp)
  | hd :: tl, st, net, r, c, hmem, hssid, hlook, hc, hcne => by
    rcases List.mem_cons.mp hmem with hh | hh
    · subst hh
      simp only [monitorCycle]
      refine List.mem_append.mpr (Or.inl ?_)
      simp [processNetwork, hssid, hlook, hc, truthy, hcne]
    · simp only [monitorCycle]
      refine List.mem_append.mpr (Or.inr ?_)
      have hlook' : dlookup net.bssid (processNetwork oracle now st hd).2.2.known = some r := by
        rcases processNetwork_known_char oracle now st hd with hcase | hcase
        · rw [hcase]
          exact hlook
        · rw [hcase.2, dlookup_dset_ne]
          · exact hlook
          · intro he
            rw [← he, hcase.1] at hlook
            exact absurd hlook (by simp)
      exact claim9_known_labels_reannounced oracle now tl _ net r c hh hssid hlook' hc hcne

theorem claim9_witness :
    (⟨"bb", "X"⟩ : ScanEntry) ∈ [(⟨"bb", "X"⟩ : ScanEntry)] ∧
    ("X" : String) ≠ "" ∧
    dlookup "bb" [("bb", (⟨"X", some "Bob"⟩ : KnownRec))] = some ⟨"X", some "Bob"⟩ ∧
    ("Bob" : String) ≠ "" ∧
    WAnnouncement.detected "Bob" ∈
      (monitorCycle (fun _ => none) 0 ⟨[("bb", ⟨"X", some "Bob"⟩)], []⟩ [⟨"bb", "X"⟩]).1 :=
  ⟨by decide, by decide, by decide, by decide,
    claim9_known_labels_reannounced (fun _ => none) 0 [⟨"bb", "X"⟩]
      ⟨[("bb", ⟨"X", some "Bob"⟩)], []⟩ ⟨"bb", "X"⟩ ⟨"X", some "Bob"⟩ "Bob"
      (by decide) (by decide) (by decide) rfl (by decide)⟩

/-- C9 counterexample: a scanned network whose BSSID is cached with the
non-empty label "Bob" but whose advertised SSID is empty is skipped
entirely — no "Detected" announcement — so the claim's "every scanned
network" quantification fails. -/
theorem claim9_counterexample :
    monitorCycle (fun _ => none) 0 ⟨[("bb", ⟨"X", some "Bob"⟩)], []⟩ [⟨"bb", ""⟩] =
      ([], [], ⟨[("bb", ⟨"X", some "Bob"⟩)], []⟩) := by decide

/-- C10: when the naming prompt yields no custom name (cancelled, empty
answer, or failed), nothing is written to the database and the cache is
untouched, so a cycle observing the unknown network announces it as new,
prompts for it, and leaves the state exactly as before — hence every
later cycle repeats the announcement and the prompt. -/
theorem claim10_declined_prompt_state_unchanged (oracle : String → Option String)
    (now : Nat) (known : List (String × KnownRec)) (db : List DbRow) (b ssid : String)
    (hssid : ssid ≠ "") (hnew : dlookup b known = none)
    (hdecl : truthy (oracle b) = false) :
    monitorCycle oracle now ⟨known, db⟩ [⟨b, ssid⟩] =
      ([WAnnouncement.newSignal], [b], ⟨known, db⟩) := by
  simp [monitorCycle, processNetwork, hssid, hnew, prompt_for_name, hdecl]

theorem claim10_witness :
    ("Net" : String) ≠ "" ∧
    dlookup "aa" ([] : List (String × KnownRec)) = none ∧
    truthy ((fun _ => none) "aa") = false ∧
    monitorCycle (fun _ => none) 0 ⟨[], []⟩ [⟨"aa", "Net"⟩] =
      ([WAnnouncement.newSignal], ["aa"], ⟨[], []⟩) :=
  ⟨by decide, by decide, by decide,
    claim10_declined_prompt_state_unchanged (fun _ => none) 0 [] [] "aa" "Net"
      (by decide) (by decide) (by decide)⟩

end Doorbell
